import Mathlib

/-!
Verification of the fetch-deduplicate-persist pipeline of the Tallahassee
crime-analytics dashboard (src/main.py).

The script is a single linear Streamlit program.  The parts relevant to the
claims are embedded shallowly below:

* JSON field values of a raw feed record are `JVal` (null, string, number);
  a Python dict may also lack a key, modelled by `Option JVal`.
* The durable store (the Supabase table `incidents`) is a list of
  `StoredRecord` in insertion order; the pipeline only ever appends.
  The duplicate query `.eq('eventinc', v)` is modelled as equality on the
  stored identifier value.
* `datetime.now()` readings are modelled by a `WallClock`: `localNow i` is
  the value the i-th loop iteration would read from the naive local-time
  clock that `datetime.now()` uses, and `utcNow i` is what a UTC clock
  would have read at the same instant.
* Python exceptions are modelled with `Except`: `pyFloat` is
  `float(incident.get(k, 0))` (line 48/49), whose `ValueError`/`TypeError`
  is raised inside the `try` block and therefore caught at line 56;
  the duplicate-existence query at line 39 is outside any `try`, so a
  failure there is modelled as an `Except.error` aborting the whole loop
  (`ingestFrom`).
-/

/-- A JSON value as it appears in one field of a feed record: null, a string,
or a number (numbers are modelled exactly, as rationals). -/
inductive JVal where
  | jnull
  | jstr (s : String)
  | jnum (q : Rat)
deriving DecidableEq

/-- One raw record of the upstream feed (one element of `data`, lines 16/35).
Each field is `none` when the key is absent from the JSON object.
`fetchedAtUpstream` stands for a hypothetical `fetched_at` key sent by the
feed; the loop never reads it (the stored `fetched_at` comes from the clock),
so carrying it makes that independence provable. -/
structure RawRecord where
  eventinc : Option JVal
  eventnum : Option JVal
  eventdate : Option JVal
  eventid : Option JVal
  x : Option JVal
  y : Option JVal
  eventdesc : Option JVal
  eventheadline : Option JVal
  eventaddress : Option JVal
  ipk : Option JVal
  fetchedAtUpstream : Option JVal
deriving DecidableEq

/-- One row of the `incidents` table, exactly the insert payload of
lines 43-55.  `incident.get(k)` yields Python `None` for an absent key, which
the JSON payload stores as null, hence plain `JVal` fields.  `x`/`y` are the
results of `float(...)`, `fetched_at` the clock reading at insert time. -/
structure StoredRecord where
  eventinc : JVal
  eventnum : JVal
  eventdate : JVal
  eventid : JVal
  x : Rat
  y : Rat
  eventdesc : JVal
  eventheadline : JVal
  eventaddress : JVal
  ipk : JVal
  fetched_at : Int
deriving DecidableEq

/-- Successive wall-clock readings of one run.  `localNow i` is what
`datetime.now()` (naive server-local time, line 54) returns at loop
iteration `i`; `utcNow i` is what a UTC clock read at the same instant. -/
structure WallClock where
  localNow : Nat → Int
  utcNow : Nat → Int

/-- Python whitespace as matched by `str.strip()` and the regex `\s` on
ASCII input. -/
def isPySpace (c : Char) : Bool :=
  c = ' ' || c = '\t' || c = '\n' || c = '\r' || c = '\x0b' || c = '\x0c'

/-- Python `str.strip()`: drop leading and trailing whitespace. -/
def pyStrip (s : String) : String :=
  String.mk (((s.toList.dropWhile isPySpace).reverse.dropWhile isPySpace).reverse)

/-- Accumulate a run of decimal digits: returns the value read so far, the
number of digits consumed, and the rest of the input. -/
def takeDigitsAux : Nat → Nat → List Char → Nat × Nat × List Char
  | acc, cnt, [] => (acc, cnt, [])
  | acc, cnt, c :: cs =>
    if c.isDigit then takeDigitsAux (acc * 10 + (c.toNat - 48)) (cnt + 1) cs
    else (acc, cnt, c :: cs)

/-- An optional leading sign; returns whether the number is negated. -/
def parseSign : List Char → Bool × List Char
  | '-' :: cs => (true, cs)
  | '+' :: cs => (false, cs)
  | cs => (false, cs)

/-- Apply the sign recorded by `parseSign`. -/
def applySign (neg : Bool) (q : Rat) : Rat := if neg then -q else q

/-- Optional exponent part and end of input, for `parseFloat`. -/
def finishExp (neg : Bool) (m : Rat) : List Char → Option Rat
  | [] => some (applySign neg m)
  | c :: cs =>
    if c = 'e' || c = 'E' then
      match parseSign cs with
      | (eneg, cs1) =>
        match takeDigitsAux 0 0 cs1 with
        | (ev, ne, rest) =>
          if ne = 0 then none
          else if rest = [] then
            some (applySign neg (if eneg then m / (10 : Rat) ^ ev else m * (10 : Rat) ^ ev))
          else none
    else none

/-- The strings accepted by the Python builtin `float` (used at lines 48-49):
surrounding whitespace, an optional sign, decimal digits with an optional
point, and an optional exponent.  (The rarely used forms `inf`/`nan` and
digit-group underscores are not modelled; no claim depends on them.)
`none` models the `ValueError` that `float` raises otherwise. -/
def parseFloat (s : String) : Option Rat :=
  match parseSign ((pyStrip s).toList) with
  | (neg, cs1) =>
    match takeDigitsAux 0 0 cs1 with
    | (ip, ni, cs2) =>
      match cs2 with
      | '.' :: cs3 =>
        match takeDigitsAux 0 0 cs3 with
        | (fp, nf, cs4) =>
          if ni + nf = 0 then none
          else finishExp neg ((ip : Rat) + (fp : Rat) / (10 : Rat) ^ nf) cs4
      | rest => if ni = 0 then none else finishExp neg (ip : Rat) rest

/-- `float(incident.get('x', 0))`, lines 48-49: an absent key defaults to the
integer `0`, so `float` yields `0.0`; a number is returned as is; a string is
parsed by `parseFloat`; `.error ()` models the `ValueError` (unparsable
string) or `TypeError` (null) raised inside the `try` block. -/
def pyFloat : Option JVal → Except Unit Rat
  | none => Except.ok 0
  | some (JVal.jnum q) => Except.ok q
  | some JVal.jnull => Except.error ()
  | some (JVal.jstr s) =>
    match parseFloat s with
    | some q => Except.ok q
    | none => Except.error ()

/-- The insert payload of lines 43-55 for a record whose `eventinc` value is
`v` and whose coordinates converted to `xv`/`yv`, inserted when the clock
read `now`.  All other fields copy `incident.get(k)`, null when absent.
The upstream `fetchedAtUpstream` field is not consulted. -/
def mkStored (r : RawRecord) (v : JVal) (xv yv : Rat) (now : Int) : StoredRecord :=
  ⟨v, r.eventnum.getD JVal.jnull, r.eventdate.getD JVal.jnull, r.eventid.getD JVal.jnull,
    xv, yv, r.eventdesc.getD JVal.jnull, r.eventheadline.getD JVal.jnull,
    r.eventaddress.getD JVal.jnull, r.ipk.getD JVal.jnull, now⟩

/-- Number of stored rows whose `eventinc` equals `v`. -/
def countId (store : List StoredRecord) (v : JVal) : Nat :=
  store.countP (fun sr => sr.eventinc == v)

/-- The duplicate-existence query of line 39:
`select('eventinc').eq('eventinc', v)` returns a non-empty `data` exactly
when some stored row has that identifier value. -/
def hasId (store : List StoredRecord) (v : JVal) : Bool :=
  store.any (fun sr => sr.eventinc == v)

/-- One iteration of the insertion loop, lines 36-57, given the store, the
record, the current `datetime.now()` reading, and whether the Supabase
`insert(...).execute()` call itself raises (a storage-layer failure injected
for the failure-isolation claims).  Returns the store after the iteration
and the number of insert errors reported by line 57 (0 or 1).
Order of the source: the key-presence check (line 36), the duplicate query
(lines 39-41), then the `try` block in which the payload is built (the
`float` conversions can raise) and the insert executed. -/
def stepRecord (store : List StoredRecord) (r : RawRecord) (now : Int)
    (insertFails : Bool) : List StoredRecord × Nat :=
  match r.eventinc with
  | none => (store, 0)
  | some v =>
    if hasId store v then (store, 0)
    else
      match pyFloat r.x, pyFloat r.y with
      | Except.ok xv, Except.ok yv =>
        if insertFails then (store, 1)
        else (store ++ [mkStored r v xv yv now], 0)
      | _, _ => (store, 1)

/-- The store once the loop of lines 35-57 has processed `recs` starting at
loop index `n` (the index feeds the clock), with insert failures injected
by `fail`. -/
def ingestStore (wc : WallClock) (fail : Nat → Bool) :
    Nat → List StoredRecord → List RawRecord → List StoredRecord
  | _, store, [] => store
  | n, store, r :: rs =>
    ingestStore wc fail (n + 1) (stepRecord store r (wc.localNow n) (fail n)).1 rs

/-- The number of insert errors reported (line 57) over the same run. -/
def ingestErrs (wc : WallClock) (fail : Nat → Bool) :
    Nat → List StoredRecord → List RawRecord → Nat
  | _, _, [] => 0
  | n, store, r :: rs =>
    (stepRecord store r (wc.localNow n) (fail n)).2
      + ingestErrs wc fail (n + 1) (stepRecord store r (wc.localNow n) (fail n)).1 rs

/-- No injected storage failures. -/
def noFail : Nat → Bool := fun _ => false

/-- The whole loop additionally exposed with failures of the
duplicate-existence query (line 39).  That query runs outside any `try`, so
when it raises at iteration `i` (`existsFail i`, and only once the key check
of line 36 has passed) the exception propagates: the run ends with the store
as accumulated so far, modelled by `Except.error`.  On completion the result
is the final store and the number of reported insert errors. -/
def ingestFrom (wc : WallClock) (existsFail fail : Nat → Bool) :
    Nat → List StoredRecord → List RawRecord →
    Except (List StoredRecord) (List StoredRecord × Nat)
  | _, store, [] => Except.ok (store, 0)
  | n, store, r :: rs =>
    if r.eventinc.isSome && existsFail n then Except.error store
    else
      match ingestFrom wc existsFail fail (n + 1)
          (stepRecord store r (wc.localNow n) (fail n)).1 rs with
      | Except.error t => Except.error t
      | Except.ok q =>
        Except.ok (q.1, (stepRecord store r (wc.localNow n) (fail n)).2 + q.2)

/-- Outcome of the fetch of lines 13-20: either the parsed `data` array, or
any fetch exception (network error, `raise_for_status`, JSON problems), in
which case the handler at lines 18-20 sets `data = []`. -/
inductive FetchResult where
  | ok (data : List RawRecord)
  | failed
deriving DecidableEq

/-- The `data` list the rest of the script sees (line 16 or line 20). -/
def fetchData : FetchResult → List RawRecord
  | FetchResult.ok d => d
  | FetchResult.failed => []

/-- Whether one cell survives `astype(float)` (lines 24-25): a missing key or
null becomes NaN, numbers cast, strings go through `float`. -/
def cellCastOk : Option JVal → Bool
  | none => true
  | some JVal.jnull => true
  | some (JVal.jnum _) => true
  | some (JVal.jstr s) => (parseFloat s).isSome

/-- `df[col].astype(float)` for one column of `pd.DataFrame(data)`: the
DataFrame's columns are the union of the records' keys, so `df[col]` raises
`KeyError` when no record has the key (in particular when `data` is empty);
otherwise `astype(float)` raises `ValueError` when some cell is an
unparsable string. -/
def coerceColumn (data : List RawRecord) (proj : RawRecord → Option JVal) :
    Except Unit Unit :=
  if data.any (fun r => (proj r).isSome) then
    if data.all (fun r => cellCastOk (proj r)) then Except.ok () else Except.error ()
  else Except.error ()

/-- Lines 24-25: coerce column `x`, then column `y`. -/
def coerceXY (data : List RawRecord) : Except Unit Unit :=
  match coerceColumn data (fun r => r.x) with
  | Except.error _ => Except.error ()
  | Except.ok _ => coerceColumn data (fun r => r.y)

/-- Outcome of one whole run of the script: `aborted s` means an uncaught
exception ended the process with the store at `s` (nothing after the raising
line runs, in particular no chart or table rendering); `rendered s e` means
the run reached the display sections with final store `s` after `e`
reported insert errors. -/
inductive RunOutcome where
  | aborted (store : List StoredRecord)
  | rendered (store : List StoredRecord) (reportedErrors : Nat)
deriving DecidableEq

/-- One full run of src/main.py over the modelled portions, in source order:
the fetch (lines 13-20), the DataFrame coercion (lines 22-25, before the
loop), then the ingestion loop (lines 35-57).  A raise in the coercion or in
a duplicate-existence query aborts the run. -/
def runScript (fr : FetchResult) (wc : WallClock) (existsFail fail : Nat → Bool)
    (store : List StoredRecord) : RunOutcome :=
  match coerceXY (fetchData fr) with
  | Except.error _ => RunOutcome.aborted store
  | Except.ok _ =>
    match ingestFrom wc existsFail fail 0 store (fetchData fr) with
    | Except.error s => RunOutcome.aborted s
    | Except.ok p => RunOutcome.rendered p.1 p.2

/-- Collapse every maximal run of whitespace to one space:
`re.sub(r'\s+', ' ', ...)` at line 108.  The flag records whether the
previous character was part of a whitespace run. -/
def collapseWsAux : Bool → List Char → List Char
  | _, [] => []
  | prevWs, c :: cs =>
    if isPySpace c then
      if prevWs then collapseWsAux true cs else ' ' :: collapseWsAux true cs
    else c :: collapseWsAux false cs

/-- `re.sub(r'\s+', ' ', s)` on a string. -/
def collapseWs (s : String) : String := String.mk (collapseWsAux false s.toList)

/-- The lowercase month abbreviations matched by the strptime directive
`%b` (matching is case-insensitive). -/
def monthAbbrevs : List String :=
  ["jan", "feb", "mar", "apr", "may", "jun", "jul", "aug", "sep", "oct", "nov", "dec"]

/-- Value of a decimal digit, `none` for any other character. -/
def digitVal (c : Char) : Option Nat :=
  if c.isDigit then some (c.toNat - 48) else none

/-- `%b`: three letters naming a month, case-insensitively; yields 1-12. -/
def readMonth : List Char → Option (Nat × List Char)
  | a :: b :: c :: rest =>
    match monthAbbrevs.findIdx? (fun m => m == String.mk [a.toLower, b.toLower, c.toLower]) with
    | some i => some (i + 1, rest)
    | none => none
  | _ => none

/-- Whitespace in a strptime format string matches one or more whitespace
characters of the input. -/
def skipWs1 : List Char → Option (List Char)
  | c :: cs => if isPySpace c then some (cs.dropWhile isPySpace) else none
  | [] => none

/-- `%d`: a day of month, following the strptime pattern
`3[01]|[12]\d|0[1-9]|[1-9]` (two digits when they form 01-31, else one
digit 1-9). -/
def readDay : List Char → Option (Nat × List Char)
  | c1 :: c2 :: rest =>
    (match digitVal c1, digitVal c2 with
      | some d1, some d2 =>
        if 1 ≤ d1 * 10 + d2 ∧ d1 * 10 + d2 ≤ 31 then some (d1 * 10 + d2, rest)
        else if 1 ≤ d1 then some (d1, c2 :: rest) else none
      | some d1, none => if 1 ≤ d1 then some (d1, c2 :: rest) else none
      | none, _ => none)
  | [c1] =>
    (match digitVal c1 with
      | some d1 => if 1 ≤ d1 then some (d1, []) else none
      | none => none)
  | [] => none

/-- `%Y`: exactly four digits. -/
def readYear : List Char → Option (Nat × List Char)
  | a :: b :: c :: d :: rest =>
    (match digitVal a, digitVal b, digitVal c, digitVal d with
      | some x1, some x2, some x3, some x4 =>
        some (x1 * 1000 + x2 * 100 + x3 * 10 + x4, rest)
      | _, _, _, _ => none)
  | _ => none

/-- `%I`: an hour on the 12-hour clock, pattern `1[0-2]|0[1-9]|[1-9]`. -/
def readHour : List Char → Option (Nat × List Char)
  | c1 :: c2 :: rest =>
    (match digitVal c1, digitVal c2 with
      | some d1, some d2 =>
        if 1 ≤ d1 * 10 + d2 ∧ d1 * 10 + d2 ≤ 12 then some (d1 * 10 + d2, rest)
        else if 1 ≤ d1 then some (d1, c2 :: rest) else none
      | some d1, none => if 1 ≤ d1 then some (d1, c2 :: rest) else none
      | none, _ => none)
  | [c1] =>
    (match digitVal c1 with
      | some d1 => if 1 ≤ d1 then some (d1, []) else none
      | none => none)
  | [] => none

/-- `%M`: a minute, pattern `[0-5]\d|\d`. -/
def readMinute : List Char → Option (Nat × List Char)
  | c1 :: c2 :: rest =>
    (match digitVal c1, digitVal c2 with
      | some d1, some d2 =>
        if d1 ≤ 5 then some (d1 * 10 + d2, rest) else some (d1, c2 :: rest)
      | some d1, none => some (d1, c2 :: rest)
      | none, _ => none)
  | [c1] =>
    (match digitVal c1 with
      | some d1 => some (d1, [])
      | none => none)
  | [] => none

/-- An exact literal character of the format string. -/
def expectChar (c : Char) : List Char → Option (List Char)
  | d :: rest => if d = c then some rest else none
  | [] => none

/-- `%p`: `AM`/`PM`, case-insensitively; `true` means PM. -/
def readAmPm : List Char → Option (Bool × List Char)
  | a :: b :: rest =>
    if a.toLower = 'a' ∧ b.toLower = 'm' then some (false, rest)
    else if a.toLower = 'p' ∧ b.toLower = 'm' then some (true, rest)
    else none
  | _ => none

/-- The datetime produced by a successful parse with format
`%b %d %Y %I:%M%p`. -/
structure EventDate where
  month : Nat
  day : Nat
  year : Nat
  hour : Nat
  minute : Nat
  pm : Bool
deriving DecidableEq

/-- Days in a month, with Gregorian leap years, as validated when strptime
constructs the date. -/
def daysInMonth (y m : Nat) : Nat :=
  if m = 2 then (if (y % 4 = 0 ∧ y % 100 ≠ 0) ∨ y % 400 = 0 then 29 else 28)
  else if m = 4 ∨ m = 6 ∨ m = 9 ∨ m = 11 then 30 else 31

/-- Full-string parse with format `%b %d %Y %I:%M%p` (line 111): the format
directives in order, whitespace in the format matching runs of input
whitespace, the whole input consumed, and the calendar-validity checks
(year at least 1, day within the month) that datetime construction
performs. -/
def parseEventDate (s : String) : Option EventDate := do
  let (mo, r1) ← readMonth s.toList
  let r2 ← skipWs1 r1
  let (d, r3) ← readDay r2
  let r4 ← skipWs1 r3
  let (y, r5) ← readYear r4
  let r6 ← skipWs1 r5
  let (h, r7) ← readHour r6
  let r8 ← expectChar ':' r7
  let (mi, r9) ← readMinute r8
  let (pm, r10) ← readAmPm r9
  if r10 = [] ∧ 1 ≤ y ∧ 1 ≤ d ∧ d ≤ daysInMonth y mo then
    some ⟨mo, d, y, h, mi, pm⟩
  else none

/-- `pd.to_datetime(date_str, format='%b %d %Y %I:%M%p')` at line 111:
`.error` models the exception it raises when the string does not match. -/
def toDatetimeStrict (s : String) : Except Unit EventDate :=
  match parseEventDate s with
  | some d => Except.ok d
  | none => Except.error ()

/-- The three values `clean_eventdate` can produce: Python `None` (line
106), a parsed datetime, or `pd.NaT` (line 113). -/
inductive CleanResult where
  | pyNone
  | parsed (d : EventDate)
  | naT
deriving DecidableEq

/-- `clean_eventdate` (lines 104-113).  Its argument is a cell of the
`eventdate` column read back from the store, i.e. a missing value
(`pd.isna`, modelled by `none`) or a string.  The body: return `None` on a
missing value; strip and collapse whitespace; try the strict parse and
catch any exception into `NaT`. -/
def clean_eventdate : Option String → CleanResult
  | none => CleanResult.pyNone
  | some s =>
    match toDatetimeStrict (collapseWs (pyStrip s)) with
    | Except.ok d => CleanResult.parsed d
    | Except.error _ => CleanResult.naT

/-- The body of the blurb of lines 174-177 explaining `ipk` to end users
(the bold heading line is omitted; backtick quoting around the word ipk is
dropped). -/
def ipkBlurbBody : String :=
  "The ipk field represents the priority or severity of each incident, as assigned by the Tallahassee Police Department. Lower values (e.g., 1 or 2) typically indicate higher priority or more urgent incidents, while higher values (e.g., 3 or 4) indicate lower priority. This helps identify which incidents require the most immediate attention."

/-- `ipk_label_map` (lines 179-184). -/
def ipk_label_map : String → Option String
  | "1" => some "1 (Least severe)"
  | "2" => some "2 (Less severe)"
  | "3" => some "3 (More severe)"
  | "4" => some "4 (Most severe)"
  | _ => none

/-- The label rendered for one ipk value in the pie chart (line 186):
`ipk_label_map.get(str(ipk), str(ipk))`. -/
def ipkLabel (ipk : String) : String := (ipk_label_map ipk).getD ipk

/-- Whether `pre` is an initial segment of the first list. -/
def startsWithList : List Char → List Char → Bool
  | _, [] => true
  | [], _ :: _ => false
  | a :: as, b :: bs => a = b && startsWithList as bs

/-- Whether `pat` occurs contiguously in the list. -/
def containsList (pat : List Char) : List Char → Bool
  | [] => startsWithList [] pat
  | c :: cs => startsWithList (c :: cs) pat || containsList pat cs

/-- Substring occurrence on strings. -/
def containsSub (hay pat : String) : Bool := containsList pat.toList hay.toList

/-- A raw record with every key absent. -/
def blankRecord : RawRecord :=
  ⟨none, none, none, none, none, none, none, none, none, none, none⟩

/-- A clock whose readings are all zero. -/
def wc0 : WallClock := ⟨fun _ => 0, fun _ => 0⟩

/-- A clock running 60 ahead of UTC: every local reading is 100 while the
UTC reading at the same instant is 40. -/
def wcSkew : WallClock := ⟨fun _ => 100, fun _ => 40⟩

/-- Sample records for witnesses and counterexamples. -/
def rA : RawRecord := { blankRecord with eventinc := some (JVal.jstr "A1") }

def rB : RawRecord := { blankRecord with eventinc := some (JVal.jstr "B2") }

def rC : RawRecord := { blankRecord with eventinc := some (JVal.jstr "C3") }

/-- A record whose identifier key is present but empty. -/
def rEmptyId : RawRecord := { blankRecord with eventinc := some (JVal.jstr "") }

/-- A record with an unparsable `x` value. -/
def rBadX : RawRecord :=
  { blankRecord with eventinc := some (JVal.jstr "B9"), x := some (JVal.jstr "abc") }

/-- A record with `x` absent and a convertible numeric `y` value. -/
def rYonly : RawRecord :=
  { blankRecord with eventinc := some (JVal.jstr "Y1"), y := some (JVal.jnum 7) }

theorem countId_append (a b : List StoredRecord) (v : JVal) :
    countId (a ++ b) v = countId a v + countId b v := by
  simp [countId, List.countP_append]

theorem countId_singleton (sr : StoredRecord) (v : JVal) :
    countId [sr] v = if sr.eventinc = v then 1 else 0 := by
  by_cases h : sr.eventinc = v <;> simp [countId, List.countP_cons, h]

theorem hasId_true_iff (store : List StoredRecord) (v : JVal) :
    hasId store v = true ↔ 0 < countId store v := by
  simp [hasId, countId, List.any_eq_true, List.countP_pos_iff]

theorem stepRecord_of_none {r : RawRecord} (store : List StoredRecord) (now : Int)
    (f : Bool) (h : r.eventinc = none) : stepRecord store r now f = (store, 0) := by
  simp [stepRecord, h]

theorem stepRecord_of_dup {r : RawRecord} (store : List StoredRecord) (now : Int)
    (f : Bool) (v : JVal) (h : r.eventinc = some v) (hd : hasId store v = true) :
    stepRecord store r now f = (store, 0) := by
  simp [stepRecord, h, hd]

theorem stepRecord_insert {r : RawRecord} (store : List StoredRecord) (now : Int)
    (v : JVal) (xv yv : Rat) (h : r.eventinc = some v) (hd : hasId store v = false)
    (hx : pyFloat r.x = Except.ok xv) (hy : pyFloat r.y = Except.ok yv) :
    stepRecord store r now false = (store ++ [mkStored r v xv yv now], 0) := by
  simp [stepRecord, h, hd, hx, hy]

theorem stepRecord_insertFail {r : RawRecord} (store : List StoredRecord) (now : Int)
    (v : JVal) (xv yv : Rat) (h : r.eventinc = some v) (hd : hasId store v = false)
    (hx : pyFloat r.x = Except.ok xv) (hy : pyFloat r.y = Except.ok yv) :
    stepRecord store r now true = (store, 1) := by
  simp [stepRecord, h, hd, hx, hy]

theorem stepRecord_floatErr {r : RawRecord} (store : List StoredRecord) (now : Int)
    (f : Bool) (v : JVal) (h : r.eventinc = some v) (hd : hasId store v = false)
    (hxy : pyFloat r.x = Except.error () ∨ pyFloat r.y = Except.error ()) :
    stepRecord store r now f = (store, 1) := by
  rcases hxy with hx | hy
  · cases hy2 : pyFloat r.y <;> simp [stepRecord, h, hd, hx, hy2]
  · cases hx2 : pyFloat r.x <;> simp [stepRecord, h, hd, hy, hx2]

theorem stepRecord_fst_cases (store : List StoredRecord) (r : RawRecord) (now : Int)
    (f : Bool) :
    (stepRecord store r now f).1 = store ∨
    ∃ v xv yv, r.eventinc = some v ∧ hasId store v = false ∧
      pyFloat r.x = Except.ok xv ∧ pyFloat r.y = Except.ok yv ∧ f = false ∧
      stepRecord store r now f = (store ++ [mkStored r v xv yv now], 0) := by
  cases hr : r.eventinc with
  | none => exact Or.inl (by rw [stepRecord_of_none store now f hr])
  | some v =>
    cases hd : hasId store v with
    | true => exact Or.inl (by rw [stepRecord_of_dup store now f v hr hd])
    | false =>
      cases hx : pyFloat r.x with
      | error e =>
        cases e
        exact Or.inl (by rw [stepRecord_floatErr store now f v hr hd (Or.inl hx)])
      | ok xv =>
        cases hy : pyFloat r.y with
        | error e =>
          cases e
          exact Or.inl (by rw [stepRecord_floatErr store now f v hr hd (Or.inr hy)])
        | ok yv =>
          cases f with
          | true => exact Or.inl (by rw [stepRecord_insertFail store now v xv yv hr hd hx hy])
          | false =>
            exact Or.inr ⟨v, xv, yv, rfl, hd, rfl, rfl, rfl,
              stepRecord_insert store now v xv yv hr hd hx hy⟩

theorem stepRecord_append_only (store : List StoredRecord) (r : RawRecord) (now : Int)
    (f : Bool) : ∃ tl, (stepRecord store r now f).1 = store ++ tl := by
  rcases stepRecord_fst_cases store r now f with h | ⟨v, xv, yv, _, _, _, _, _, h⟩
  · exact ⟨[], by simp [h]⟩
  · exact ⟨[mkStored r v xv yv now], by rw [h]⟩

theorem ingestStore_append_only (wc : WallClock) (fail : Nat → Bool) :
    ∀ (recs : List RawRecord) (n : Nat) (store : List StoredRecord),
    ∃ tl, ingestStore wc fail n store recs = store ++ tl := by
  intro recs
  induction recs with
  | nil => intro n store; exact ⟨[], by simp [ingestStore]⟩
  | cons r rs ih =>
    intro n store
    obtain ⟨t1, h1⟩ := stepRecord_append_only store r (wc.localNow n) (fail n)
    obtain ⟨t2, h2⟩ := ih (n + 1) ((stepRecord store r (wc.localNow n) (fail n)).1)
    refine ⟨t1 ++ t2, ?_⟩
    simp only [ingestStore]
    rw [h2, h1, List.append_assoc]

/-- A record the loop can no longer insert against store `s`: the identifier
key is absent, or its value is already stored, or one of the coordinate
conversions raises. -/
def blocked (s : List StoredRecord) (r : RawRecord) : Prop :=
  r.eventinc = none ∨
    ∃ v, r.eventinc = some v ∧
      (0 < countId s v ∨ pyFloat r.x = Except.error () ∨ pyFloat r.y = Except.error ())

theorem step_of_blocked {s : List StoredRecord} {r : RawRecord} (now : Int) (f : Bool)
    (h : blocked s r) : (stepRecord s r now f).1 = s := by
  rcases h with h | ⟨v, hv, hc | hx | hy⟩
  · rw [stepRecord_of_none s now f h]
  · rw [stepRecord_of_dup s now f v hv ((hasId_true_iff s v).mpr hc)]
  · cases hd : hasId s v
    · rw [stepRecord_floatErr s now f v hv hd (Or.inl hx)]
    · rw [stepRecord_of_dup s now f v hv hd]
  · cases hd : hasId s v
    · rw [stepRecord_floatErr s now f v hv hd (Or.inr hy)]
    · rw [stepRecord_of_dup s now f v hv hd]

theorem blocked_mono {s s' : List StoredRecord} {r : RawRecord} (h : blocked s r)
    (happ : ∃ tl, s' = s ++ tl) : blocked s' r := by
  obtain ⟨tl, rfl⟩ := happ
  rcases h with h | ⟨v, hv, hc | hx | hy⟩
  · exact Or.inl h
  · exact Or.inr ⟨v, hv, Or.inl (by rw [countId_append]; omega)⟩
  · exact Or.inr ⟨v, hv, Or.inr (Or.inl hx)⟩
  · exact Or.inr ⟨v, hv, Or.inr (Or.inr hy)⟩

theorem blocked_after_step (s : List StoredRecord) (r : RawRecord) (now : Int) :
    blocked ((stepRecord s r now false).1) r := by
  cases hr : r.eventinc with
  | none => exact Or.inl hr
  | some v =>
    cases hd : hasId s v with
    | true =>
      refine Or.inr ⟨v, hr, Or.inl ?_⟩
      rw [stepRecord_of_dup s now false v hr hd]
      exact (hasId_true_iff s v).mp hd
    | false =>
      cases hx : pyFloat r.x with
      | error e => cases e; exact Or.inr ⟨v, hr, Or.inr (Or.inl hx)⟩
      | ok xv =>
        cases hy : pyFloat r.y with
        | error e => cases e; exact Or.inr ⟨v, hr, Or.inr (Or.inr hy)⟩
        | ok yv =>
          refine Or.inr ⟨v, hr, Or.inl ?_⟩
          rw [stepRecord_insert s now v xv yv hr hd hx hy]
          show 0 < countId (s ++ [mkStored r v xv yv now]) v
          rw [countId_append, countId_singleton]
          simp [mkStored]

theorem ingest_blocked_all (wc : WallClock) :
    ∀ (recs : List RawRecord) (n : Nat) (s : List StoredRecord),
    ∀ r ∈ recs, blocked (ingestStore wc noFail n s recs) r := by
  intro recs
  induction recs with
  | nil => intro n s r hr; cases hr
  | cons r0 rs ih =>
    intro n s r hr
    simp only [ingestStore]
    rcases List.mem_cons.mp hr with rfl | hr2
    · refine blocked_mono ?_ (ingestStore_append_only wc noFail rs (n + 1) _)
      have : noFail n = false := rfl
      rw [this]
      exact blocked_after_step s r (wc.localNow n)
    · exact ih (n + 1) _ r hr2

theorem ingest_of_all_blocked (wc : WallClock) :
    ∀ (recs : List RawRecord) (n : Nat) (s : List StoredRecord),
    (∀ r ∈ recs, blocked s r) → ingestStore wc noFail n s recs = s := by
  intro recs
  induction recs with
  | nil => intro n s _; simp [ingestStore]
  | cons r0 rs ih =>
    intro n s hb
    simp only [ingestStore]
    rw [step_of_blocked (wc.localNow n) (noFail n) (hb r0 (List.mem_cons_self r0 rs))]
    exact ih (n + 1) s (fun r hr => hb r (List.mem_cons_of_mem r0 hr))

theorem step_countId_preserved {s : List StoredRecord} {r : RawRecord} {now : Int}
    {f : Bool} {v : JVal} (h : 0 < countId s v) :
    countId ((stepRecord s r now f).1) v = countId s v := by
  rcases stepRecord_fst_cases s r now f with heq | ⟨w, xv, yv, hw, hd, hx, hy, hf, hstep⟩
  · rw [heq]
  · rw [hstep]
    show countId (s ++ [mkStored r w xv yv now]) v = countId s v
    have hw0 : countId s w = 0 := by
      cases hcw : countId s w with
      | zero => rfl
      | succ m => exact absurd ((hasId_true_iff s w).mpr (by omega)) (by simp [hd])
    have hne : ¬ w = v := fun hwv => by rw [hwv] at hw0; omega
    rw [countId_append, countId_singleton]
    simp [mkStored, hne]

theorem ingest_countId_preserved (wc : WallClock) (fail : Nat → Bool) :
    ∀ (recs : List RawRecord) (n : Nat) (s : List StoredRecord) (v : JVal),
    0 < countId s v → countId (ingestStore wc fail n s recs) v = countId s v := by
  intro recs
  induction recs with
  | nil => intro n s v _; simp [ingestStore]
  | cons r0 rs ih =>
    intro n s v h
    simp only [ingestStore]
    rw [ih (n + 1) _ v (by rw [step_countId_preserved h]; exact h),
      step_countId_preserved h]

theorem step_countId_le {s : List StoredRecord} {r : RawRecord} {now : Int} {f : Bool}
    {v : JVal} : countId ((stepRecord s r now f).1) v ≤ countId s v + 1 := by
  rcases stepRecord_fst_cases s r now f with heq | ⟨w, xv, yv, _, _, _, _, _, hstep⟩
  · rw [heq]; omega
  · rw [hstep]
    show countId (s ++ [mkStored r w xv yv now]) v ≤ countId s v + 1
    rw [countId_append, countId_singleton]
    split <;> omega

theorem ingest_countId_le (wc : WallClock) (fail : Nat → Bool) :
    ∀ (recs : List RawRecord) (n : Nat) (s : List StoredRecord) (v : JVal),
    countId (ingestStore wc fail n s recs) v ≤ countId s v + 1 := by
  intro recs
  induction recs with
  | nil => intro n s v; simp [ingestStore]
  | cons r0 rs ih =>
    intro n s v
    simp only [ingestStore]
    by_cases h : 0 < countId ((stepRecord s r0 (wc.localNow n) (fail n)).1) v
    · rw [ingest_countId_preserved wc fail rs (n + 1) _ v h]
      exact step_countId_le
    · have h2 := ih (n + 1) ((stepRecord s r0 (wc.localNow n) (fail n)).1) v
      omega

/-- Claim C1: running the ingestion cycle twice with the identical fetched
sequence is idempotent: the second run leaves the store unchanged (hence
equal sizes), the cycle only appends (a stored record is never overwritten),
each distinct eventinc value is inserted at most once, and an
already-stored identifier is never inserted again. -/
theorem C1_dedup_idempotent (wc1 wc2 : WallClock) (store : List StoredRecord)
    (recs : List RawRecord) :
    ingestStore wc2 noFail 0 (ingestStore wc1 noFail 0 store recs) recs
      = ingestStore wc1 noFail 0 store recs
    ∧ (ingestStore wc2 noFail 0 (ingestStore wc1 noFail 0 store recs) recs).length
      = (ingestStore wc1 noFail 0 store recs).length
    ∧ (∃ tl, ingestStore wc1 noFail 0 store recs = store ++ tl)
    ∧ (∀ v, countId (ingestStore wc1 noFail 0 store recs) v ≤ countId store v + 1)
    ∧ (∀ v, 0 < countId store v →
        countId (ingestStore wc1 noFail 0 store recs) v = countId store v) := by
  have hidem : ingestStore wc2 noFail 0 (ingestStore wc1 noFail 0 store recs) recs
      = ingestStore wc1 noFail 0 store recs :=
    ingest_of_all_blocked wc2 recs 0 _ (fun r hr => ingest_blocked_all wc1 recs 0 store r hr)
  exact ⟨hidem, by rw [hidem], ingestStore_append_only wc1 noFail recs 0 store,
    fun v => ingest_countId_le wc1 noFail recs 0 store v,
    fun v h => ingest_countId_preserved wc1 noFail recs 0 store v h⟩

theorem C1_witness :
    countId (ingestStore wc0 noFail 0 [mkStored rA (JVal.jstr "A1") 0 0 0] [rB])
        (JVal.jstr "A1")
      = countId [mkStored rA (JVal.jstr "A1") 0 0 0] (JVal.jstr "A1") :=
  (C1_dedup_idempotent wc0 wc0 [mkStored rA (JVal.jstr "A1") 0 0 0] [rB]).2.2.2.2
    (JVal.jstr "A1") (by decide)

/-- Claim C2 (amended): only absence of the eventinc key causes rejection;
a record whose eventinc key is absent is never persisted and reports no
error, under any values of the other fields, any store, any clock reading
and any injected insert failure. -/
theorem C2_reject_absent_only (store : List StoredRecord) (r : RawRecord) (now : Int)
    (f : Bool) (h : r.eventinc = none) : stepRecord store r now f = (store, 0) :=
  stepRecord_of_none store now f h

theorem C2_witness : stepRecord [] blankRecord 0 false = ([], 0) :=
  C2_reject_absent_only [] blankRecord 0 false rfl

/-- Claim C2 counterexample: the claim says a record whose eventinc is
present with an empty value is never persisted; but the loop only tests key
presence (line 36), so a record with eventinc equal to the empty string is
inserted into the store. -/
theorem C2_counterexample :
    ingestStore wc0 noFail 0 [] [rEmptyId] = [mkStored rEmptyId (JVal.jstr "") 0 0 0]
    ∧ (mkStored rEmptyId (JVal.jstr "") 0 0 0).eventinc = JVal.jstr "" := by
  exact ⟨rfl, rfl⟩

/-- Claim C4: when the fetch fails, the handler of lines 18-20 sets
`data = []`, but then `df['x']` at line 24 raises an uncaught `KeyError`
(the empty DataFrame has no columns): the run aborts before the ingestion
loop and before any rendering, with the store unchanged — contradicting the
claim that no exception escapes and prior records remain displayed. -/
theorem C4_fetch_failure_aborts (wc : WallClock) (existsFail fail : Nat → Bool)
    (store : List StoredRecord) :
    runScript FetchResult.failed wc existsFail fail store = RunOutcome.aborted store := rfl

/-- Claim C5 (amended): a record with a fresh identifier whose `x` key is
absent is persisted with `x` defaulted to 0.0 whenever its `y` converts
(in particular when `y` is absent, converting to 0.0), and symmetrically a
record whose `y` key is absent is persisted with `y` as 0.0 whenever its
`x` converts; but a record whose `x` (or `y`) value is present and
unparsable is NOT persisted: the `float` call raises inside the `try`
block, the insert never executes, and one error is reported. -/
theorem C5_geometry (store : List StoredRecord) (r : RawRecord) (now : Int) (v : JVal)
    (hv : r.eventinc = some v) (hd : hasId store v = false) :
    (∀ yv, r.x = none → pyFloat r.y = Except.ok yv →
      stepRecord store r now false = (store ++ [mkStored r v 0 yv now], 0))
    ∧ (∀ xv, r.y = none → pyFloat r.x = Except.ok xv →
      stepRecord store r now false = (store ++ [mkStored r v xv 0 now], 0))
    ∧ (pyFloat r.x = Except.error () → stepRecord store r now false = (store, 1))
    ∧ (∀ xv, pyFloat r.x = Except.ok xv → pyFloat r.y = Except.error () →
        stepRecord store r now false = (store, 1)) := by
  refine ⟨?_, ?_, ?_, ?_⟩
  · intro yv hx hy
    exact stepRecord_insert store now v 0 yv hv hd (by rw [hx]; rfl) hy
  · intro xv hy hx
    exact stepRecord_insert store now v xv 0 hv hd hx (by rw [hy]; rfl)
  · intro hx
    exact stepRecord_floatErr store now false v hv hd (Or.inl hx)
  · intro xv hx hy
    exact stepRecord_floatErr store now false v hv hd (Or.inr hy)

theorem C5_witness :
    stepRecord [] rYonly 0 false = ([mkStored rYonly (JVal.jstr "Y1") 0 7 0], 0)
    ∧ stepRecord [] rA 0 false = ([mkStored rA (JVal.jstr "A1") 0 0 0], 0)
    ∧ stepRecord [] rBadX 0 false = ([], 1) :=
  ⟨(C5_geometry [] rYonly 0 (JVal.jstr "Y1") rfl rfl).1 7 rfl rfl,
   (C5_geometry [] rA 0 (JVal.jstr "A1") rfl rfl).1 0 rfl rfl,
   (C5_geometry [] rBadX 0 (JVal.jstr "B9") rfl rfl).2.2.1 rfl⟩

/-- Claim C5 counterexample: the claim says a record whose `x` is unparsable
is still persisted with `x = 0.0`; in fact `float('abc')` raises inside the
`try`, the record is dropped, and an insert error is reported. -/
theorem C5_counterexample :
    ingestStore wc0 noFail 0 [] [rBadX] = [] ∧ ingestErrs wc0 noFail 0 [] [rBadX] = 1 := by
  exact ⟨rfl, rfl⟩

/-- Claim C6 (amended): the stored `fetched_at` is assigned by the pipeline
at the moment of insert from `datetime.now()` — the naive server-local
clock, not a UTC clock — and does not depend on any upstream-supplied
field (the raw record `r`, including its `fetchedAtUpstream` field, is
arbitrary). -/
theorem C6_timestamp (wc : WallClock) (i : Nat) (store : List StoredRecord)
    (r : RawRecord) (v : JVal) (xv yv : Rat) (hv : r.eventinc = some v)
    (hd : hasId store v = false) (hx : pyFloat r.x = Except.ok xv)
    (hy : pyFloat r.y = Except.ok yv) :
    stepRecord store r (wc.localNow i) false
      = (store ++ [mkStored r v xv yv (wc.localNow i)], 0)
    ∧ (mkStored r v xv yv (wc.localNow i)).fetched_at = wc.localNow i :=
  ⟨stepRecord_insert store (wc.localNow i) v xv yv hv hd hx hy, rfl⟩

theorem C6_witness :
    stepRecord [] rA (wc0.localNow 0) false
      = ([mkStored rA (JVal.jstr "A1") 0 0 (wc0.localNow 0)], 0) :=
  (C6_timestamp wc0 0 [] rA (JVal.jstr "A1") 0 0 rfl rfl rfl rfl).1

/-- Claim C6 counterexample: on a clock running ahead of UTC (local reading
100, UTC reading 40 at the same instant) the stored timestamp is the local
reading, not the UTC one — the claim's "expressed in UTC" fails. -/
theorem C6_counterexample :
    ingestStore wcSkew noFail 0 [] [rA] = [mkStored rA (JVal.jstr "A1") 0 0 100]
    ∧ (mkStored rA (JVal.jstr "A1") 0 0 100).fetched_at = wcSkew.localNow 0
    ∧ (mkStored rA (JVal.jstr "A1") 0 0 100).fetched_at ≠ wcSkew.utcNow 0 := by
  refine ⟨rfl, rfl, by decide⟩

/-- Claim C7: the pie-chart label map presents ipk 1 as least severe and 4
as most severe, but the explanatory blurb rendered directly above it tells
users that LOWER values indicate HIGHER priority/more urgent incidents —
the two user-facing texts contradict each other, so the convention is not
presented consistently. -/
theorem C7_severity_contradiction :
    ipkLabel "1" = "1 (Least severe)" ∧ ipkLabel "4" = "4 (Most severe)"
    ∧ containsSub ipkBlurbBody
        "Lower values (e.g., 1 or 2) typically indicate higher priority or more urgent incidents" = true
    ∧ containsSub ipkBlurbBody
        "higher values (e.g., 3 or 4) indicate lower priority" = true := by
  set_option maxRecDepth 10000 in
  exact ⟨rfl, rfl, by decide, by decide⟩

/-- Claim C8: a successful fetch with an empty `data` array yields a
DataFrame with no columns, so the coercion `df['x'].astype(float)` raises an
uncaught exception and the run aborts before any insertion or rendering,
with the store unchanged. -/
theorem C8_empty_feed_aborts (wc : WallClock) (existsFail fail : Nat → Bool)
    (store : List StoredRecord) :
    runScript (FetchResult.ok []) wc existsFail fail store = RunOutcome.aborted store := rfl

theorem ingestFrom_noExistsFail (wc : WallClock) (fail : Nat → Bool) :
    ∀ (recs : List RawRecord) (n : Nat) (store : List StoredRecord),
    ingestFrom wc (fun _ => false) fail n store recs
      = Except.ok (ingestStore wc fail n store recs, ingestErrs wc fail n store recs) := by
  intro recs
  induction recs with
  | nil => intro n store; simp [ingestFrom, ingestStore, ingestErrs]
  | cons r rs ih =>
    intro n store
    simp only [ingestFrom, ingestStore, ingestErrs, Bool.and_false, Bool.false_eq_true,
      if_false]
    rw [ih (n + 1) ((stepRecord store r (wc.localNow n) (fail n)).1)]

theorem ingestFrom_abort (wc : WallClock) (existsFail fail : Nat → Bool)
    (r : RawRecord) (post : List RawRecord) (hsome : r.eventinc.isSome = true) :
    ∀ (pre : List RawRecord) (n : Nat) (store : List StoredRecord),
    (∀ i, i < pre.length → existsFail (n + i) = false) →
    existsFail (n + pre.length) = true →
    ingestFrom wc existsFail fail n store (pre ++ r :: post)
      = Except.error (ingestStore wc fail n store pre) := by
  intro pre
  induction pre with
  | nil =>
    intro n store _ hk
    simp only [List.length_nil, Nat.add_zero] at hk
    simp [ingestFrom, ingestStore, hsome, hk]
  | cons p ps ih =>
    intro n store h1 hk
    have h0 : existsFail n = false := by simpa using h1 0 (by simp)
    simp only [List.cons_append, ingestFrom, ingestStore, h0, Bool.and_false,
      Bool.false_eq_true, if_false, List.append_eq]
    rw [ih (n + 1) ((stepRecord store p (wc.localNow n) (fail n)).1) ?_ ?_]
    · intro i hi
      have := h1 (i + 1) (by simpa using Nat.succ_lt_succ hi)
      rwa [show n + (i + 1) = n + 1 + i by omega] at this
    · rwa [show n + 1 + ps.length = n + (p :: ps).length by simp; omega]

/-- Claim C9: within one cycle only exceptions of the insert call are
contained per record; the duplicate-existence query at line 39 runs outside
the `try`, so when it raises at record `r` (after `pre`, with the key check
of line 36 passed), the exception propagates and aborts record `r` and every
subsequent record: the run ends with the store exactly as left by the
records before `r`. -/
theorem C9_exists_query_aborts (wc : WallClock) (existsFail fail : Nat → Bool)
    (store : List StoredRecord) (pre : List RawRecord) (r : RawRecord)
    (post : List RawRecord) (h1 : ∀ i, i < pre.length → existsFail i = false)
    (h2 : existsFail pre.length = true) (h3 : r.eventinc.isSome = true) :
    ingestFrom wc existsFail fail 0 store (pre ++ r :: post)
      = Except.error (ingestStore wc fail 0 store pre) := by
  refine ingestFrom_abort wc existsFail fail r post h3 pre 0 store ?_ ?_
  · intro i hi; simpa using h1 i hi
  · simpa using h2

theorem C9_witness :
    ingestFrom wc0 (fun i => decide (i = 1)) noFail 0 [] ([rA] ++ rB :: [])
      = Except.error (ingestStore wc0 noFail 0 [] [rA]) := by
  refine C9_exists_query_aborts wc0 (fun i => decide (i = 1)) noFail [] [rA] rB [] ?_ rfl rfl
  intro i hi
  have h0 : i = 0 := by simpa using hi
  subst h0
  rfl

/-- Number of loop iterations (starting at index `n`) whose injected insert
failure fires. -/
def countFails (fail : Nat → Bool) : Nat → List RawRecord → Nat
  | _, [] => 0
  | n, _ :: rs => (if fail n then 1 else 0) + countFails fail (n + 1) rs

/-- Number of loop iterations whose injected insert failure does not fire. -/
def countOks (fail : Nat → Bool) : Nat → List RawRecord → Nat
  | _, [] => 0
  | n, _ :: rs => (if fail n then 0 else 1) + countOks fail (n + 1) rs

/-- Number of records in the window that carry identifier value `v` at an
iteration whose insert does not fail. -/
def insertedCount (fail : Nat → Bool) : Nat → List RawRecord → JVal → Nat
  | _, [], _ => 0
  | n, r :: rs, v =>
    (if r.eventinc = some v ∧ fail n = false then 1 else 0)
      + insertedCount fail (n + 1) rs v

theorem countFails_notin (fail : Nat → Bool) :
    ∀ (l : List RawRecord) (n : Nat), (∀ i, i < l.length → fail (n + i) = false) →
    countFails fail n l = 0 := by
  intro l
  induction l with
  | nil => intro n _; rfl
  | cons r rs ih =>
    intro n h
    have h0 : fail n = false := by simpa using h 0 (by simp)
    have ht : ∀ i, i < rs.length → fail (n + 1 + i) = false := by
      intro i hi
      have := h (i + 1) (by simpa using Nat.succ_lt_succ hi)
      rwa [show n + (i + 1) = n + 1 + i by omega] at this
    simp [countFails, h0, ih (n + 1) ht]

theorem countFails_append (fail : Nat → Bool) :
    ∀ (l1 l2 : List RawRecord) (n : Nat),
    countFails fail n (l1 ++ l2)
      = countFails fail n l1 + countFails fail (n + l1.length) l2 := by
  intro l1
  induction l1 with
  | nil => intro l2 n; simp [countFails]
  | cons r rs ih =>
    intro l2 n
    simp only [List.cons_append, countFails, List.append_eq, ih l2 (n + 1), List.length_cons]
    rw [show n + (rs.length + 1) = n + 1 + rs.length by omega]
    omega

theorem countOks_add_countFails (fail : Nat → Bool) :
    ∀ (l : List RawRecord) (n : Nat),
    countOks fail n l + countFails fail n l = l.length := by
  intro l
  induction l with
  | nil => intro n; rfl
  | cons r rs ih =>
    intro n
    have := ih (n + 1)
    simp only [countOks, countFails, List.length_cons]
    cases hf : fail n <;> simp [hf] <;> omega

theorem insertedCount_append (fail : Nat → Bool) :
    ∀ (l1 l2 : List RawRecord) (n : Nat) (v : JVal),
    insertedCount fail n (l1 ++ l2) v
      = insertedCount fail n l1 v + insertedCount fail (n + l1.length) l2 v := by
  intro l1
  induction l1 with
  | nil => intro l2 n v; simp [insertedCount]
  | cons r rs ih =>
    intro l2 n v
    simp only [List.cons_append, insertedCount, List.append_eq, ih l2 (n + 1), List.length_cons]
    rw [show n + (rs.length + 1) = n + 1 + rs.length by omega]
    omega

theorem insertedCount_notmem (fail : Nat → Bool) :
    ∀ (l : List RawRecord) (n : Nat) (v : JVal),
    (∀ r ∈ l, r.eventinc ≠ some v) → insertedCount fail n l v = 0 := by
  intro l
  induction l with
  | nil => intro n v _; rfl
  | cons r rs ih =>
    intro n v h
    have h0 : r.eventinc ≠ some v := h r (List.mem_cons_self r rs)
    simp [insertedCount, h0, ih (n + 1) v (fun r2 hr2 => h r2 (List.mem_cons_of_mem r hr2))]

theorem insertedCount_unique (fail : Nat → Bool) :
    ∀ (l : List RawRecord) (n : Nat) (v : JVal),
    (∀ i, i < l.length → fail (n + i) = false) →
    (l.map RawRecord.eventinc).Nodup →
    (∃ r ∈ l, r.eventinc = some v) → insertedCount fail n l v = 1 := by
  intro l
  induction l with
  | nil => intro n v _ _ hex; simp at hex
  | cons r0 rs ih =>
    intro n v hfl hnd hex
    rw [List.map_cons] at hnd
    obtain ⟨hnotin, hnd2⟩ := List.nodup_cons.mp hnd
    have hfl0 : fail n = false := by simpa using hfl 0 (by simp)
    have hflt : ∀ i, i < rs.length → fail (n + 1 + i) = false := by
      intro i hi
      have := hfl (i + 1) (by simpa using Nat.succ_lt_succ hi)
      rwa [show n + (i + 1) = n + 1 + i by omega] at this
    by_cases h0 : r0.eventinc = some v
    · have hrs : ∀ r ∈ rs, r.eventinc ≠ some v := by
        intro r hr he
        exact hnotin (by rw [h0, ← he]; exact List.mem_map_of_mem RawRecord.eventinc hr)
      simp [insertedCount, h0, hfl0, insertedCount_notmem fail rs (n + 1) v hrs]
    · obtain ⟨r, hr, hrv⟩ := hex
      rcases List.mem_cons.mp hr with rfl | hr2
      · exact absurd hrv h0
      · simp [insertedCount, h0, ih (n + 1) v hflt hnd2 ⟨r, hr2, hrv⟩]

/-- Counting invariant of one loop pass over fresh, pairwise-distinct,
fully-insertable records: the reported errors are exactly the injected insert
failures, the store grows by the number of non-failing iterations, and each
identifier value gains exactly its `insertedCount`. -/
theorem ingest_stats (wc : WallClock) (fail : Nat → Bool) :
    ∀ (recs : List RawRecord) (n : Nat) (store : List StoredRecord),
    (∀ r ∈ recs, ∃ v xv yv, r.eventinc = some v ∧ pyFloat r.x = Except.ok xv
        ∧ pyFloat r.y = Except.ok yv) →
    (recs.map RawRecord.eventinc).Nodup →
    (∀ r ∈ recs, ∀ v, r.eventinc = some v → countId store v = 0) →
    ingestErrs wc fail n store recs = countFails fail n recs
    ∧ (ingestStore wc fail n store recs).length = store.length + countOks fail n recs
    ∧ ∀ v, countId (ingestStore wc fail n store recs) v
        = countId store v + insertedCount fail n recs v := by
  intro recs
  induction recs with
  | nil =>
    intro n store _ _ _
    exact ⟨rfl, by simp [ingestStore, countOks], fun v => by simp [ingestStore, insertedCount]⟩
  | cons r0 rs ih =>
    intro n store hins hnd hfresh
    obtain ⟨v0, xv, yv, hv0, hx, hy⟩ := hins r0 (List.mem_cons_self r0 rs)
    have hfresh0 : countId store v0 = 0 := hfresh r0 (List.mem_cons_self r0 rs) v0 hv0
    have hd : hasId store v0 = false := by
      cases hh : hasId store v0
      · rfl
      · have := (hasId_true_iff store v0).mp hh; omega
    rw [List.map_cons] at hnd
    obtain ⟨hnotin, hnd2⟩ := List.nodup_cons.mp hnd
    have hins2 := fun r hr => hins r (List.mem_cons_of_mem r0 hr)
    cases hf : fail n with
    | true =>
      have hstep : stepRecord store r0 (wc.localNow n) (fail n) = (store, 1) := by
        rw [hf]; exact stepRecord_insertFail store (wc.localNow n) v0 xv yv hv0 hd hx hy
      obtain ⟨e1, e2, e3⟩ := ih (n + 1) store hins2 hnd2
        (fun r hr v hv => hfresh r (List.mem_cons_of_mem r0 hr) v hv)
      refine ⟨?_, ?_, fun v => ?_⟩
      · simp only [ingestErrs, hstep]
        simp [countFails, hf, e1]
      · simp only [ingestStore, hstep]
        simp [countOks, hf, e2]
      · simp only [ingestStore, hstep]
        rw [e3 v]
        simp [insertedCount, hf]
    | false =>
      have hstep : stepRecord store r0 (wc.localNow n) (fail n)
          = (store ++ [mkStored r0 v0 xv yv (wc.localNow n)], 0) := by
        rw [hf]; exact stepRecord_insert store (wc.localNow n) v0 xv yv hv0 hd hx hy
      have hfresh2 : ∀ r ∈ rs, ∀ v, r.eventinc = some v →
          countId (store ++ [mkStored r0 v0 xv yv (wc.localNow n)]) v = 0 := by
        intro r hr v hv
        rw [countId_append, countId_singleton]
        have h1 : countId store v = 0 := hfresh r (List.mem_cons_of_mem r0 hr) v hv
        have h2 : ¬ (mkStored r0 v0 xv yv (wc.localNow n)).eventinc = v := by
          show ¬ v0 = v
          intro he
          exact hnotin (by rw [hv0, he, ← hv]; exact List.mem_map_of_mem RawRecord.eventinc hr)
        simp [h1, h2]
      obtain ⟨e1, e2, e3⟩ := ih (n + 1) (store ++ [mkStored r0 v0 xv yv (wc.localNow n)])
        hins2 hnd2 hfresh2
      refine ⟨?_, ?_, fun v => ?_⟩
      · simp only [ingestErrs, hstep]
        simp [countFails, hf, e1]
      · simp only [ingestStore, hstep]
        rw [e2]
        simp [countOks, hf]
        omega
      · simp only [ingestStore, hstep]
        rw [e3 v, countId_append, countId_singleton]
        simp only [insertedCount, hv0, hf]
        have hmk : (mkStored r0 v0 xv yv (wc.localNow n)).eventinc = v0 := rfl
        rw [hmk]
        by_cases hvv : v0 = v
        · simp only [hvv, if_pos rfl, Option.some.injEq]
          simp
          omega
        · simp [hvv]

/-- Claim C3: partial-failure isolation.  For a fetched sequence
`pre ++ rk :: post` of insertable records (identifier present, coordinates
convertible) with pairwise-distinct identifiers none of which is already
stored, when the store insert raises for exactly the record at position
`pre.length` (record `rk`) and no duplicate query fails, the cycle completes
without aborting, reports exactly one failure, the store grows by N-1, every
record other than `rk` is persisted exactly once, and `rk` is not
persisted. -/
theorem C3_partial_failure_isolation (wc : WallClock) (store : List StoredRecord)
    (pre : List RawRecord) (rk : RawRecord) (post : List RawRecord)
    (hins : ∀ r ∈ pre ++ rk :: post, ∃ v xv yv, r.eventinc = some v
        ∧ pyFloat r.x = Except.ok xv ∧ pyFloat r.y = Except.ok yv)
    (hnd : ((pre ++ rk :: post).map RawRecord.eventinc).Nodup)
    (hfresh : ∀ r ∈ pre ++ rk :: post, ∀ v, r.eventinc = some v → countId store v = 0) :
    ingestFrom wc (fun _ => false) (fun i => decide (i = pre.length)) 0 store
        (pre ++ rk :: post)
      = Except.ok
          (ingestStore wc (fun i => decide (i = pre.length)) 0 store (pre ++ rk :: post), 1)
    ∧ (ingestStore wc (fun i => decide (i = pre.length)) 0 store (pre ++ rk :: post)).length
        + 1 = store.length + (pre ++ rk :: post).length
    ∧ (∀ r, (r ∈ pre ∨ r ∈ post) → ∀ v, r.eventinc = some v →
        countId (ingestStore wc (fun i => decide (i = pre.length)) 0 store
          (pre ++ rk :: post)) v = 1)
    ∧ (∀ v, rk.eventinc = some v →
        countId (ingestStore wc (fun i => decide (i = pre.length)) 0 store
          (pre ++ rk :: post)) v = 0) := by
  obtain ⟨e1, e2, e3⟩ := ingest_stats wc (fun i => decide (i = pre.length))
    (pre ++ rk :: post) 0 store hins hnd hfresh
  rw [List.map_append, List.map_cons] at hnd
  obtain ⟨hndPre, hndCons, hdisj⟩ := List.nodup_append.mp hnd
  obtain ⟨hrkNotPost, hndPost⟩ := List.nodup_cons.mp hndCons
  have hpreFails : ∀ i, i < pre.length →
      (fun i => decide (i = pre.length)) (0 + i) = false := by
    intro i hi; simp only [Nat.zero_add, decide_eq_false_iff_not]; omega
  have hpostFails : ∀ i, i < post.length →
      (fun i => decide (i = pre.length)) (0 + pre.length + 1 + i) = false := by
    intro i hi; simp only [decide_eq_false_iff_not]; omega
  have hcf : countFails (fun i => decide (i = pre.length)) 0 (pre ++ rk :: post) = 1 := by
    rw [countFails_append, countFails_notin _ pre 0 hpreFails]
    simp only [countFails, Nat.zero_add, decide_eq_true_eq]
    rw [countFails_notin _ post (pre.length + 1)
      (fun i hi => by simp only [decide_eq_false_iff_not]; omega)]
    simp
  have hsum := countOks_add_countFails (fun i => decide (i = pre.length)) (pre ++ rk :: post) 0
  refine ⟨?_, ?_, ?_, ?_⟩
  · rw [ingestFrom_noExistsFail wc (fun i => decide (i = pre.length)) (pre ++ rk :: post) 0 store,
      e1, hcf]
  · omega
  · intro r hr v hv
    have hmem : r ∈ pre ++ rk :: post := by
      rcases hr with h | h
      · exact List.mem_append_left _ h
      · exact List.mem_append_right _ (List.mem_cons_of_mem rk h)
    have hz : countId store v = 0 := hfresh r hmem v hv
    rw [e3 v, hz, insertedCount_append]
    simp only [insertedCount, Nat.zero_add, decide_eq_true_eq]
    rcases hr with h | h
    · have hpre1 : insertedCount (fun i => decide (i = pre.length)) 0 pre v = 1 :=
        insertedCount_unique _ pre 0 v hpreFails hndPre ⟨r, h, hv⟩
      have hpost0 : insertedCount (fun i => decide (i = pre.length)) (pre.length + 1) post v
          = 0 := by
        refine insertedCount_notmem _ post (pre.length + 1) v ?_
        intro r2 hr2 he2
        have hm1 : some v ∈ List.map RawRecord.eventinc pre := by
          rw [← hv]; exact List.mem_map_of_mem RawRecord.eventinc h
        have hm2 : some v ∈ rk.eventinc :: List.map RawRecord.eventinc post := by
          rw [← he2]
          exact List.mem_cons_of_mem rk.eventinc (List.mem_map_of_mem RawRecord.eventinc hr2)
        exact hdisj hm1 hm2
      rw [hpre1, hpost0]
      simp
    · have hpre0 : insertedCount (fun i => decide (i = pre.length)) 0 pre v = 0 := by
        refine insertedCount_notmem _ pre 0 v ?_
        intro r2 hr2 he2
        have hm1 : some v ∈ List.map RawRecord.eventinc pre := by
          rw [← he2]; exact List.mem_map_of_mem RawRecord.eventinc hr2
        have hm2 : some v ∈ rk.eventinc :: List.map RawRecord.eventinc post := by
          rw [← hv]
          exact List.mem_cons_of_mem rk.eventinc (List.mem_map_of_mem RawRecord.eventinc h)
        exact hdisj hm1 hm2
      have hpost1 : insertedCount (fun i => decide (i = pre.length)) (pre.length + 1) post v
          = 1 := by
        refine insertedCount_unique _ post (pre.length + 1) v ?_ hndPost ⟨r, h, hv⟩
        intro i hi
        simp only [decide_eq_false_iff_not]; omega
      rw [hpre0, hpost1]
      simp
  · intro v hv
    have hz : countId store v = 0 :=
      hfresh rk (List.mem_append_right _ (List.mem_cons_self rk post)) v hv
    rw [e3 v, hz, insertedCount_append]
    simp only [insertedCount, Nat.zero_add, decide_eq_true_eq]
    have hpre0 : insertedCount (fun i => decide (i = pre.length)) 0 pre v = 0 := by
      refine insertedCount_notmem _ pre 0 v ?_
      intro r2 hr2 he2
      have hm1 : some v ∈ List.map RawRecord.eventinc pre := by
        rw [← he2]; exact List.mem_map_of_mem RawRecord.eventinc hr2
      have hm2 : some v ∈ rk.eventinc :: List.map RawRecord.eventinc post := by
        rw [← hv]
        exact List.mem_cons_self rk.eventinc (post.map RawRecord.eventinc)
      exact hdisj hm1 hm2
    have hpost0 : insertedCount (fun i => decide (i = pre.length)) (pre.length + 1) post v
        = 0 := by
      refine insertedCount_notmem _ post (pre.length + 1) v ?_
      intro r2 hr2 he2
      refine hrkNotPost ?_
      rw [hv, ← he2]
      exact List.mem_map_of_mem RawRecord.eventinc hr2
    rw [hpre0, hpost0]
    simp

theorem C3_witness :
    ingestFrom wc0 (fun _ => false) (fun i => decide (i = 1)) 0 [] ([rA] ++ rB :: [rC])
      = Except.ok (ingestStore wc0 (fun i => decide (i = 1)) 0 [] ([rA] ++ rB :: [rC]), 1)
    ∧ countId (ingestStore wc0 (fun i => decide (i = 1)) 0 [] ([rA] ++ rB :: [rC]))
        (JVal.jstr "A1") = 1
    ∧ countId (ingestStore wc0 (fun i => decide (i = 1)) 0 [] ([rA] ++ rB :: [rC]))
        (JVal.jstr "B2") = 0 := by
  have h := C3_partial_failure_isolation wc0 [] [rA] rB [rC] ?_ ?_ ?_
  · exact ⟨h.1, h.2.2.1 rA (Or.inl (List.mem_cons_self rA [])) (JVal.jstr "A1") rfl,
      h.2.2.2 (JVal.jstr "B2") rfl⟩
  · intro r hr
    simp only [List.cons_append, List.nil_append, List.mem_cons,
      List.not_mem_nil, or_false] at hr
    rcases hr with rfl | rfl | rfl
    · exact ⟨JVal.jstr "A1", 0, 0, rfl, rfl, rfl⟩
    · exact ⟨JVal.jstr "B2", 0, 0, rfl, rfl, rfl⟩
    · exact ⟨JVal.jstr "C3", 0, 0, rfl, rfl, rfl⟩
  · decide
  · intro r hr v hv
    rfl

/-- Claim C10: `clean_eventdate` is total over its input domain (a missing
value or a string) and never raises: a missing (NA) value yields Python
`None`; a string that, after trimming and collapsing each internal
whitespace run to a single space, parses with format `%b %d %Y %I:%M%p`
yields the parsed datetime; every other string yields `NaT`, the parse
exception being caught by the `except` of line 112. -/
theorem C10_clean_eventdate_total (x : Option String) :
    (x = none → clean_eventdate x = CleanResult.pyNone)
    ∧ (∀ s d, x = some s → parseEventDate (collapseWs (pyStrip s)) = some d →
        clean_eventdate x = CleanResult.parsed d)
    ∧ (∀ s, x = some s → parseEventDate (collapseWs (pyStrip s)) = none →
        clean_eventdate x = CleanResult.naT) := by
  refine ⟨?_, ?_, ?_⟩
  · intro h; rw [h]; rfl
  · intro s d hx hp
    rw [hx]
    simp [clean_eventdate, toDatetimeStrict, hp]
  · intro s hx hp
    rw [hx]
    simp [clean_eventdate, toDatetimeStrict, hp]

theorem C10_witness :
    clean_eventdate (some " Mar   5  2024  4:07pm ")
      = CleanResult.parsed ⟨3, 5, 2024, 4, 7, true⟩
    ∧ clean_eventdate none = CleanResult.pyNone
    ∧ clean_eventdate (some "garbage") = CleanResult.naT := by
  refine ⟨?_, ?_, ?_⟩
  · exact (C10_clean_eventdate_total (some " Mar   5  2024  4:07pm ")).2.1
      " Mar   5  2024  4:07pm " ⟨3, 5, 2024, 4, 7, true⟩ rfl (by decide)
  · exact (C10_clean_eventdate_total none).1 rfl
  · exact (C10_clean_eventdate_total (some "garbage")).2.2 "garbage" rfl (by decide)
